import Mathlib

/-!
Verification of the drift-checker comparison engine.

This file gives a shallow embedding of the drift-comparison engine of the
`drift-checker` repository (package `engine`, with types from package
`common`) and proves properties of it.  Two revisions of the per-pair
comparator exist in the sources: the current one (typed helpers
`compareField` / `compareMap` / `compareSlice`, dispatcher with context
cancellation) and the legacy one (a single `reflect.DeepEqual`-based
closure); both are embedded.

Modelling conventions:
* Go strings and bools are `String` and `Bool`.
* A Go `[]string` or `[]BlockDeviceMapping` that may be `nil` is modelled as
  `Option (List _)` (`none` = the nil slice); a slice known to be non-nil is a
  plain `List _`.  The slice operations the engine applies (`append`-copy,
  `sort.Strings`, `slices.Equal`) do not distinguish nil from empty, but
  `reflect.DeepEqual` on maps does distinguish a nil map from an empty one,
  so `Tags` (a Go `map[string]string`) is `Option TagList`.
* A Go `map[string]FieldDiff` is an association list with the insertion /
  overwrite behaviour of a Go map (`mapSet`); every schema field is written
  at most once per comparison and Go map equality is extensional, so lookups
  and list equality faithfully reflect what callers can observe.
* `sort.Strings` is modelled as the function returning the sorted
  permutation (`sortStrings`): for a linear order every sorting algorithm
  returns the same list.  Go compares strings byte-wise over UTF-8, which
  orders them lexicographically by code point (`charListLeb`).
* The dispatcher `CompareAllInstances` runs each observed instance's
  comparison on one of 10 pooled workers and collects results in completion
  order.  Each result's content is deterministic; only the order of the
  returned list is not.  The model lists results in task order
  (`CompareAllInstances`), which fixes one representative of the possible
  orders.  Cancellation is checked at each task dequeue, so a run with
  cancellation completes an arbitrary subset of the tasks and abandons the
  rest without emitting anything (`CompareAllInstancesCancellable`, with the
  completed subset as an explicit Boolean mask).
* For the frame property ("comparison never mutates its inputs") the
  mutable `[]string` slices are modelled explicitly as references into a
  heap (`Heap`), and the slice-handling code is embedded in state-passing
  style (`compareInstancesHeap`); `sort.Strings` mutates its argument slice
  in place (`sortInPlace`).  Tag maps and `[]BlockDeviceMapping` slices are
  only ever read by the engine — no code path writes to them — so they stay
  pure values; the only slices ever written are the `[]string` copies made
  with `append` and the fresh lists built by `FlattenBlockDevices`, all of
  which live in the heap in this model.
-/

namespace DriftChecker

/-- `common.BlockDeviceMapping`: mapping of a block device. -/
structure BlockDeviceMapping where
  deviceName : String := ""
  volumeID : String := ""
deriving DecidableEq, Repr

/-- The entries of a Go `map[string]string` (tag map). -/
abbrev TagList := List (String × String)

/-- `common.EC2Instance`: configuration details of an EC2 instance.
Reference-typed fields (`SecurityGroups`, `Tags`, `BlockDeviceMappings`) are
`Option` so that the nil value is representable; every other field's Go zero
value is the default. -/
structure EC2Instance where
  instanceID : String := ""
  instanceType : String := ""
  imageID : String := ""
  keyName : String := ""
  state : String := ""
  availabilityZone : String := ""
  privateIPAddress : String := ""
  publicIPAddress : String := ""
  subnetID : String := ""
  vpcID : String := ""
  securityGroups : Option (List String) := none
  tags : Option TagList := none
  blockDeviceMappings : Option (List BlockDeviceMapping) := none
  iamInstanceProfile : String := ""
  monitoring : Bool := false
  architecture : String := ""
  virtualizationType : String := ""
deriving DecidableEq, Repr

/-- The dynamic (`any`) values stored in a `common.FieldDiff` by the engine:
strings, booleans, string slices and tag maps. -/
inductive GoValue where
  | str (s : String)
  | boolean (b : Bool)
  | strList (l : List String)
  | strMap (m : Option TagList)
deriving DecidableEq, Repr

/-- `common.FieldDiff`: the AWS and Terraform values of a differing field. -/
structure FieldDiff where
  aws : GoValue
  terraform : GoValue
deriving DecidableEq, Repr

/-- A Go `map[string]FieldDiff` in insertion order. -/
abbrev Diffs := List (String × FieldDiff)

/-- `common.DriftResult`: summary of the differences for one instance. -/
structure DriftResult where
  instanceID : String
  driftDetected : Bool
  differences : Diffs
deriving DecidableEq, Repr

/-- A `map[string]bool` field filter, represented by the set of names mapped
to `true` (the repository only ever inserts `true`, via `common.ToMap`). -/
abbrev Filter := List String

/-- `filter[field]` on the Go filter map. -/
def filterHas (filter : Filter) (field : String) : Bool :=
  filter.contains field

/-- The `shouldCompare` closure of the engine:
`len(filter) == 0 || filter[field]`. -/
def shouldCompare (filter : Filter) (field : String) : Bool :=
  filter.isEmpty || filterHas filter field

/-- Go map insertion `out[k] = v`: overwrite the entry for `k` if present
(the lists built by the engine hold each key at most once), else append. -/
def mapSet : Diffs → String → FieldDiff → Diffs
  | [], k, v => [(k, v)]
  | p :: out, k, v => if p.1 = k then (k, v) :: out else p :: mapSet out k v

/-- Lexicographic comparison of two lists of characters by code point: the
byte-wise comparison Go's `sort.Strings` performs on UTF-8 encoded strings
orders strings exactly this way. -/
def charListLeb : List Char → List Char → Bool
  | [], _ => true
  | _ :: _, [] => false
  | a :: as, b :: bs =>
    if a.toNat < b.toNat then true
    else if b.toNat < a.toNat then false
    else charListLeb as bs

/-- Lexicographic `≤` on strings, as a Boolean function on character
lists. -/
def strLeb (a b : String) : Bool :=
  charListLeb a.data b.data

/-- Lexicographic `≤` on strings, as a relation. -/
def strLe (a b : String) : Prop :=
  strLeb a b = true

instance : DecidableRel strLe :=
  fun a b => instDecidableEqBool (strLeb a b) true

/-- `sort.Strings`, as a function: the (unique) `strLe`-sorted permutation of
the list. -/
def sortStrings (l : List String) : List String :=
  List.insertionSort strLe l

/-- The copy `append([]string{}, xs...)` of a possibly-nil Go slice: a
(non-nil) list with the same elements. -/
def sliceCopy (o : Option (List String)) : List String :=
  o.getD []

/-- `common.FlattenBlockDevices`: flatten a possibly-nil slice of block
device mappings to `"<device_name>|<volume_id>"` strings (`nil` and the
empty slice both flatten to the empty list). -/
def FlattenBlockDevices : Option (List BlockDeviceMapping) → List String
  | none => []
  | some ds => ds.map (fun d => d.deviceName ++ "|" ++ d.volumeID)

/-- Lookup in a Go `map[string]string` value. -/
def tagLookup (m : TagList) (k : String) : Option String :=
  m.lookup k

/-- Extensional equality of two tag maps: every key of either side is present
with the same value on the other side. -/
def tagListEqv (a b : TagList) : Bool :=
  a.all (fun p => tagLookup b p.1 == some p.2) &&
    b.all (fun p => tagLookup a p.1 == some p.2)

/-- `reflect.DeepEqual` on `map[string]string` values: a nil map is deeply
equal only to a nil map, never to a non-nil (even empty) map; two non-nil
maps are deeply equal iff they hold the same key/value pairs. -/
def mapsDeepEqual : Option TagList → Option TagList → Bool
  | none, none => true
  | some a, some b => tagListEqv a b
  | _, _ => false

/-- `engine.compareField` (current engine): type-safe comparison of two
values of a comparable type `T`; `inj` records how a value of `T` is stored
as a dynamic (`any`) value in the diff. -/
def compareField {T : Type} [DecidableEq T] (inj : T → GoValue) (field : String)
    (a b : T) (filter : Filter) (out : Diffs) : Diffs :=
  if !filter.isEmpty && !(filterHas filter field) then out
  else if a ≠ b then mapSet out field ⟨inj a, inj b⟩
  else out

/-- `engine.compareMap` (current engine): compare two tag maps with
`reflect.DeepEqual` and record a diff if they differ. -/
def compareMap (field : String) (a b : Option TagList) (filter : Filter)
    (out : Diffs) : Diffs :=
  if !filter.isEmpty && !(filterHas filter field) then out
  else if !(mapsDeepEqual a b) then mapSet out field ⟨.strMap a, .strMap b⟩
  else out

/-- `engine.compareSlice` (current engine): compare two string slices up to
order, by sorting fresh copies (`sa`, `sb` in the source); a diff stores the
sorted copies. -/
def compareSlice (field : String) (a b : List String) (filter : Filter)
    (out : Diffs) : Diffs :=
  if !filter.isEmpty && !(filterHas filter field) then out
  else if sortStrings a ≠ sortStrings b then
    mapSet out field ⟨.strList (sortStrings a), .strList (sortStrings b)⟩
  else out

/-- The nine scalar-field comparisons of `engine.compareInstances`, in source
order. -/
def scalarSteps (awsInst tfInst : EC2Instance) (filter : Filter) (d : Diffs) : Diffs :=
  let d := compareField .str "instance_type" awsInst.instanceType tfInst.instanceType filter d
  let d := compareField .str "image_id" awsInst.imageID tfInst.imageID filter d
  let d := compareField .str "key_name" awsInst.keyName tfInst.keyName filter d
  let d := compareField .str "subnet_id" awsInst.subnetID tfInst.subnetID filter d
  let d := compareField .str "vpc_id" awsInst.vpcID tfInst.vpcID filter d
  let d := compareField .str "iam_instance_profile" awsInst.iamInstanceProfile tfInst.iamInstanceProfile filter d
  let d := compareField .boolean "monitoring" awsInst.monitoring tfInst.monitoring filter d
  let d := compareField .str "architecture" awsInst.architecture tfInst.architecture filter d
  compareField .str "virtualization_type" awsInst.virtualizationType tfInst.virtualizationType filter d

/-- The tag comparison of `engine.compareInstances`: guarded by
`shouldCompare("tags") && !reflect.DeepEqual(awsInst.Tags, tfInst.Tags)`. -/
def tagsStep (awsInst tfInst : EC2Instance) (filter : Filter) (d : Diffs) : Diffs :=
  if shouldCompare filter "tags" && !(mapsDeepEqual awsInst.tags tfInst.tags) then
    compareMap "tags" awsInst.tags tfInst.tags filter d
  else d

/-- The security-group comparison of `engine.compareInstances`: sort copies
(`awsSg`, `tfSg` in the source) of both sides, and hand the sorted copies to
`compareSlice` when they differ. -/
def sgStep (awsInst tfInst : EC2Instance) (filter : Filter) (d : Diffs) : Diffs :=
  if shouldCompare filter "security_groups" then
    if sortStrings (sliceCopy awsInst.securityGroups) ≠ sortStrings (sliceCopy tfInst.securityGroups) then
      compareSlice "security_groups" (sortStrings (sliceCopy awsInst.securityGroups))
        (sortStrings (sliceCopy tfInst.securityGroups)) filter d
    else d
  else d

/-- The block-device comparison of `engine.compareInstances`: flatten both
sides, sort (`awsBdm`, `tfBdm` in the source), and hand the sorted flat lists
to `compareSlice` when they differ. -/
def bdmStep (awsInst tfInst : EC2Instance) (filter : Filter) (d : Diffs) : Diffs :=
  if shouldCompare filter "block_device_mappings" then
    if sortStrings (FlattenBlockDevices awsInst.blockDeviceMappings) ≠ sortStrings (FlattenBlockDevices tfInst.blockDeviceMappings) then
      compareSlice "block_device_mappings" (sortStrings (FlattenBlockDevices awsInst.blockDeviceMappings))
        (sortStrings (FlattenBlockDevices tfInst.blockDeviceMappings)) filter d
    else d
  else d

/-- `engine.compareInstances` (current engine): drift between one AWS
instance and its Terraform counterpart.  `DriftDetected` is
`len(result.Differences) > 0`. -/
def compareInstances (awsInst tfInst : EC2Instance) (filter : Filter) : DriftResult :=
  { instanceID := awsInst.instanceID
    driftDetected := decide (0 <
      (bdmStep awsInst tfInst filter
        (sgStep awsInst tfInst filter
          (tagsStep awsInst tfInst filter
            (scalarSteps awsInst tfInst filter [])))).length)
    differences :=
      bdmStep awsInst tfInst filter
        (sgStep awsInst tfInst filter
          (tagsStep awsInst tfInst filter
            (scalarSteps awsInst tfInst filter []))) }

/-- Lookup in the `tfMap` index built by `CompareAllInstances`
(`tfMap[tfInst.InstanceID] = tfInst` in list order, so the last declared
instance with a given id wins). -/
def tfMapLookup (tfInstances : List EC2Instance) (id : String) : Option EC2Instance :=
  tfInstances.reverse.find? (fun inst => inst.instanceID == id)

/-- The work done by a worker of `engine.CompareAllInstances` for one
observed instance: a synthetic `"terraform_state"` drift when the declared
counterpart is missing, otherwise `compareInstances`. -/
def processInstance (tfInstances : List EC2Instance) (filter : Filter)
    (awsInst : EC2Instance) : DriftResult :=
  match tfMapLookup tfInstances awsInst.instanceID with
  | none =>
      { instanceID := awsInst.instanceID
        driftDetected := true
        differences := [("terraform_state", ⟨.str "exists", .str "missing"⟩)] }
  | some tfInst => compareInstances awsInst tfInst filter

/-- `engine.CompareAllInstances` (current engine) under no cancellation:
every observed instance is dequeued by exactly one worker and yields exactly
one result (see the module doc for the ordering convention). -/
def CompareAllInstances (awsInstances tfInstances : List EC2Instance)
    (filter : Filter) : List DriftResult :=
  awsInstances.map (processInstance tfInstances filter)

/-- `engine.CompareAllInstances` with cancellation: workers check the context
at each dequeue, so each observed instance is either processed to completion
(its flag in `completed` is `true`) or abandoned without emitting anything.
Observed instances beyond the flag list are abandoned. -/
def CompareAllInstancesCancellable (awsInstances tfInstances : List EC2Instance)
    (filter : Filter) (completed : List Bool) : List DriftResult :=
  ((awsInstances.zip completed).filter (fun p => p.2)).map
    (fun p => processInstance tfInstances filter p.1)

/-- `reflect.DeepEqual` on the dynamic values compared by the legacy
`CompareInstances`: values of different dynamic types are unequal; strings
and booleans compare by value; string slices compare element-wise (every
slice the legacy code passes here is a freshly-`append`ed, hence non-nil,
copy); tag maps compare as maps. -/
def goDeepEqual : GoValue → GoValue → Bool
  | .str a, .str b => a == b
  | .boolean a, .boolean b => a == b
  | .strList a, .strList b => a == b
  | .strMap a, .strMap b => mapsDeepEqual a b
  | _, _ => false

/-- The `compare` closure of the legacy `engine.CompareInstances`:
`if shouldCompare(field) && !reflect.DeepEqual(a, b)`, record the diff. -/
def legacyCompare (field : String) (a b : GoValue) (filter : Filter)
    (out : Diffs) : Diffs :=
  if shouldCompare filter field && !(goDeepEqual a b) then mapSet out field ⟨a, b⟩
  else out

/-- The nine scalar-field comparisons of the legacy `CompareInstances`, in
source order. -/
def legacyScalarSteps (awsInst tfInst : EC2Instance) (filter : Filter) (d : Diffs) : Diffs :=
  let d := legacyCompare "instance_type" (.str awsInst.instanceType) (.str tfInst.instanceType) filter d
  let d := legacyCompare "image_id" (.str awsInst.imageID) (.str tfInst.imageID) filter d
  let d := legacyCompare "key_name" (.str awsInst.keyName) (.str tfInst.keyName) filter d
  let d := legacyCompare "subnet_id" (.str awsInst.subnetID) (.str tfInst.subnetID) filter d
  let d := legacyCompare "vpc_id" (.str awsInst.vpcID) (.str tfInst.vpcID) filter d
  let d := legacyCompare "iam_instance_profile" (.str awsInst.iamInstanceProfile) (.str tfInst.iamInstanceProfile) filter d
  let d := legacyCompare "monitoring" (.boolean awsInst.monitoring) (.boolean tfInst.monitoring) filter d
  let d := legacyCompare "architecture" (.str awsInst.architecture) (.str tfInst.architecture) filter d
  legacyCompare "virtualization_type" (.str awsInst.virtualizationType) (.str tfInst.virtualizationType) filter d

/-- The tag comparison of the legacy `CompareInstances`. -/
def legacyTagsStep (awsInst tfInst : EC2Instance) (filter : Filter) (d : Diffs) : Diffs :=
  if shouldCompare filter "tags" && !(mapsDeepEqual awsInst.tags tfInst.tags) then
    legacyCompare "tags" (.strMap awsInst.tags) (.strMap tfInst.tags) filter d
  else d

/-- The security-group comparison of the legacy `CompareInstances`: same
copy-and-sort as the current engine, then the `compare` closure on the
sorted copies. -/
def legacySgStep (awsInst tfInst : EC2Instance) (filter : Filter) (d : Diffs) : Diffs :=
  if shouldCompare filter "security_groups" then
    if sortStrings (sliceCopy awsInst.securityGroups) ≠ sortStrings (sliceCopy tfInst.securityGroups) then
      legacyCompare "security_groups" (.strList (sortStrings (sliceCopy awsInst.securityGroups)))
        (.strList (sortStrings (sliceCopy tfInst.securityGroups))) filter d
    else d
  else d

/-- The block-device comparison of the legacy `CompareInstances`. -/
def legacyBdmStep (awsInst tfInst : EC2Instance) (filter : Filter) (d : Diffs) : Diffs :=
  if shouldCompare filter "block_device_mappings" then
    if sortStrings (FlattenBlockDevices awsInst.blockDeviceMappings) ≠ sortStrings (FlattenBlockDevices tfInst.blockDeviceMappings) then
      legacyCompare "block_device_mappings" (.strList (sortStrings (FlattenBlockDevices awsInst.blockDeviceMappings)))
        (.strList (sortStrings (FlattenBlockDevices tfInst.blockDeviceMappings))) filter d
    else d
  else d

/-- The legacy `engine.CompareInstances` (the exported,
`reflect.DeepEqual`-based per-pair comparator). -/
def CompareInstancesLegacy (awsInst tfInst : EC2Instance) (filter : Filter) : DriftResult :=
  { instanceID := awsInst.instanceID
    driftDetected := decide (0 <
      (legacyBdmStep awsInst tfInst filter
        (legacySgStep awsInst tfInst filter
          (legacyTagsStep awsInst tfInst filter
            (legacyScalarSteps awsInst tfInst filter [])))).length)
    differences :=
      legacyBdmStep awsInst tfInst filter
        (legacySgStep awsInst tfInst filter
          (legacyTagsStep awsInst tfInst filter
            (legacyScalarSteps awsInst tfInst filter []))) }

/-- The nine scalar schema field names, in source order. -/
def scalarFieldNames : List String :=
  ["instance_type", "image_id", "key_name", "subnet_id", "vpc_id",
   "iam_instance_profile", "monitoring", "architecture", "virtualization_type"]

/-- All twelve recognized schema field names. -/
def allFieldNames : List String :=
  scalarFieldNames ++ ["tags", "security_groups", "block_device_mappings"]

/-- A heap of Go `[]string` values, for the state-passing embedding of the
slice-handling code (see the module doc). -/
structure Heap where
  strs : List (List String)
deriving Repr

/-- Number of allocated slices. -/
def Heap.size (h : Heap) : Nat :=
  h.strs.length

/-- Read the slice a reference points to. -/
def Heap.read (h : Heap) (r : Nat) : List String :=
  h.strs.getD r []

/-- Overwrite the slice a reference points to. -/
def Heap.write (h : Heap) (r : Nat) (v : List String) : Heap :=
  ⟨h.strs.set r v⟩

/-- Allocate a fresh slice, returning the new heap and the reference. -/
def Heap.alloc (h : Heap) (v : List String) : Heap × Nat :=
  (⟨h.strs ++ [v]⟩, h.strs.length)

/-- Read a possibly-nil slice reference (a nil slice reads as empty). -/
def readSliceRef (h : Heap) : Option Nat → List String
  | none => []
  | some r => h.read r

/-- `sort.Strings(s)`: sort the referenced slice in place. -/
def sortInPlace (h : Heap) (r : Nat) : Heap :=
  h.write r (sortStrings (h.read r))

/-- The copy-both-then-sort-both idiom the engine uses on slices: allocate
copies of `x` and `y`, sort both copies in place, and return the final heap
with the two references. -/
def allocSortPair (h : Heap) (x y : List String) : Heap × Nat × Nat :=
  let p1 := h.alloc x
  let p2 := p1.1.alloc y
  (sortInPlace (sortInPlace p2.1 p1.2) p2.2, p1.2, p2.2)

/-- `common.EC2Instance` with its `SecurityGroups` slice held by reference in
the heap (`none` = nil slice).  Only `[]string` values are mutable in the
engine, so the remaining fields stay pure (the `securityGroups` field of
`inst` is superseded by `sgRef` and unused). -/
structure EC2InstanceRef where
  inst : EC2Instance
  sgRef : Option Nat := none
deriving Repr

/-- `engine.compareSlice`, state-passing: copy both referenced slices
(`append([]string(nil), a...)`), sort the copies in place, and record a diff
from the sorted copies if they differ. -/
def compareSliceHeap (field : String) (aRef bRef : Nat) (filter : Filter)
    (out : Diffs) (h : Heap) : Diffs × Heap :=
  if !filter.isEmpty && !(filterHas filter field) then (out, h)
  else
    let q := allocSortPair h (h.read aRef) (h.read bRef)
    if q.1.read q.2.1 ≠ q.1.read q.2.2 then
      (mapSet out field ⟨.strList (q.1.read q.2.1), .strList (q.1.read q.2.2)⟩, q.1)
    else (out, q.1)

/-- The security-group block of `engine.compareInstances`, state-passing:
copy both sides with `append([]string{}, ...)`, sort the copies in place,
and call `compareSlice` on them when they differ. -/
def sgStepHeap (awsInst tfInst : EC2InstanceRef) (filter : Filter) (d : Diffs)
    (h : Heap) : Diffs × Heap :=
  if shouldCompare filter "security_groups" then
    let q := allocSortPair h (readSliceRef h awsInst.sgRef) (readSliceRef h tfInst.sgRef)
    if q.1.read q.2.1 ≠ q.1.read q.2.2 then
      compareSliceHeap "security_groups" q.2.1 q.2.2 filter d q.1
    else (d, q.1)
  else (d, h)

/-- The block-device block of `engine.compareInstances`, state-passing:
`FlattenBlockDevices` builds fresh slices, which are then sorted in place
and handed to `compareSlice` when they differ. -/
def bdmStepHeap (awsInst tfInst : EC2InstanceRef) (filter : Filter) (d : Diffs)
    (h : Heap) : Diffs × Heap :=
  if shouldCompare filter "block_device_mappings" then
    let q := allocSortPair h (FlattenBlockDevices awsInst.inst.blockDeviceMappings)
      (FlattenBlockDevices tfInst.inst.blockDeviceMappings)
    if q.1.read q.2.1 ≠ q.1.read q.2.2 then
      compareSliceHeap "block_device_mappings" q.2.1 q.2.2 filter d q.1
    else (d, q.1)
  else (d, h)

/-- `engine.compareInstances`, state-passing: the scalar and tag comparisons
touch no slice; the security-group and block-device blocks thread the
heap. -/
def compareInstancesHeap (awsInst tfInst : EC2InstanceRef) (filter : Filter)
    (h : Heap) : DriftResult × Heap :=
  let d0 := tagsStep awsInst.inst tfInst.inst filter
    (scalarSteps awsInst.inst tfInst.inst filter [])
  let p1 := sgStepHeap awsInst tfInst filter d0 h
  let p2 := bdmStepHeap awsInst tfInst filter p1.1 p1.2
  ({ instanceID := awsInst.inst.instanceID
     driftDetected := decide (0 < p2.1.length)
     differences := p2.1 }, p2.2)

/-- One worker task of `engine.CompareAllInstances`, state-passing. -/
def processInstanceHeap (tfInstances : List EC2InstanceRef) (filter : Filter)
    (awsInst : EC2InstanceRef) (h : Heap) : DriftResult × Heap :=
  match tfInstances.reverse.find? (fun t => t.inst.instanceID == awsInst.inst.instanceID) with
  | none =>
      ({ instanceID := awsInst.inst.instanceID
         driftDetected := true
         differences := [("terraform_state", ⟨.str "exists", .str "missing"⟩)] }, h)
  | some tfInst => compareInstancesHeap awsInst tfInst filter h

/-- `engine.CompareAllInstances`, state-passing: tasks processed one after
another, threading the heap. -/
def CompareAllInstancesHeap : List EC2InstanceRef → List EC2InstanceRef → Filter → Heap → List DriftResult × Heap
  | [], _, _, h => ([], h)
  | a :: as, tfInstances, filter, h =>
    let p := processInstanceHeap tfInstances filter a h
    let rest := CompareAllInstancesHeap as tfInstances filter p.2
    (p.1 :: rest.1, rest.2)

theorem charListLeb_total (as bs : List Char) :
    charListLeb as bs = true ∨ charListLeb bs as = true := by
  induction as generalizing bs with
  | nil => left; cases bs <;> rfl
  | cons a as ih =>
    cases bs with
    | nil => right; rfl
    | cons b bs =>
      simp only [charListLeb]
      rcases Nat.lt_trichotomy a.toNat b.toNat with h | h | h
      · left; simp [h]
      · have h1 : ¬ a.toNat < b.toNat := by omega
        have h2 : ¬ b.toNat < a.toNat := by omega
        simpa [h1, h2] using ih bs
      · right; simp [h]

theorem charListLeb_trans (as bs cs : List Char)
    (hab : charListLeb as bs = true) (hbc : charListLeb bs cs = true) :
    charListLeb as cs = true := by
  induction as generalizing bs cs with
  | nil => cases cs <;> rfl
  | cons a as ih =>
    cases bs with
    | nil => simp [charListLeb] at hab
    | cons b bs =>
      cases cs with
      | nil => simp [charListLeb] at hbc
      | cons c cs =>
        simp only [charListLeb] at hab hbc ⊢
        by_cases h1 : a.toNat < b.toNat
        · by_cases h2 : b.toNat < c.toNat
          · have hac : a.toNat < c.toNat := Nat.lt_trans h1 h2
            simp [hac]
          · by_cases h3 : c.toNat < b.toNat
            · simp [h2, h3] at hbc
            · have hac : a.toNat < c.toNat := by omega
              simp [hac]
        · by_cases h4 : b.toNat < a.toNat
          · simp [h1, h4] at hab
          · by_cases h2 : b.toNat < c.toNat
            · have hac : a.toNat < c.toNat := by omega
              simp [hac]
            · by_cases h3 : c.toNat < b.toNat
              · simp [h2, h3] at hbc
              · have hac1 : ¬ a.toNat < c.toNat := by omega
                have hac2 : ¬ c.toNat < a.toNat := by omega
                simp only [h1, h4, if_false, if_neg] at hab
                simp only [h2, h3, if_false, if_neg] at hbc
                simp only [hac1, hac2, if_false, if_neg]
                exact ih bs cs hab hbc

theorem charListLeb_antisymm (as bs : List Char)
    (hab : charListLeb as bs = true) (hba : charListLeb bs as = true) :
    as = bs := by
  induction as generalizing bs with
  | nil => cases bs with
    | nil => rfl
    | cons b bs => simp [charListLeb] at hba
  | cons a as ih =>
    cases bs with
    | nil => simp [charListLeb] at hab
    | cons b bs =>
      simp only [charListLeb] at hab hba
      rcases Nat.lt_trichotomy a.toNat b.toNat with h | h | h
      · simp [h] at hba
        omega
      · have h1 : ¬ a.toNat < b.toNat := by omega
        have h2 : ¬ b.toNat < a.toNat := by omega
        simp [h1, h2] at hab hba
        have hchar : a = b := by
          apply Char.ext
          cases ha : a.val; cases hb : b.val
          congr 1
          apply BitVec.eq_of_toNat_eq
          have hn : a.val.toNat = b.val.toNat := h
          rw [ha, hb] at hn
          exact hn
        rw [hchar, ih bs hab hba]
      · simp [h] at hab
        omega

theorem strLe_isTotal : IsTotal String strLe :=
  ⟨fun a b => charListLeb_total a.data b.data⟩

theorem strLe_isTrans : IsTrans String strLe :=
  ⟨fun a b c => charListLeb_trans a.data b.data c.data⟩

theorem strLe_isAntisymm : IsAntisymm String strLe :=
  ⟨fun a b h1 h2 => String.ext (charListLeb_antisymm a.data b.data h1 h2)⟩

theorem sortStrings_perm (l : List String) : (sortStrings l).Perm l :=
  List.perm_insertionSort strLe l

theorem sortStrings_sorted (l : List String) : (sortStrings l).Sorted strLe := by
  haveI := strLe_isTotal
  haveI := strLe_isTrans
  exact List.sorted_insertionSort strLe l

theorem sortStrings_eq_of_perm {a b : List String} (h : a.Perm b) :
    sortStrings a = sortStrings b := by
  haveI := strLe_isAntisymm
  exact List.eq_of_perm_of_sorted
    ((sortStrings_perm a).trans (h.trans (sortStrings_perm b).symm))
    (sortStrings_sorted a) (sortStrings_sorted b)

theorem sortStrings_idem (l : List String) :
    sortStrings (sortStrings l) = sortStrings l :=
  sortStrings_eq_of_perm (sortStrings_perm l)

theorem lookup_mapSet_self (out : Diffs) (k : String) (v : FieldDiff) :
    (mapSet out k v).lookup k = some v := by
  induction out with
  | nil => simp [mapSet, List.lookup]
  | cons p out ih =>
    simp only [mapSet]
    by_cases hp : p.1 = k
    · simp [hp, List.lookup]
    · have hk : (k == p.1) = false := by
        simp only [beq_eq_false_iff_ne, ne_eq]
        exact fun e => hp e.symm
      simp [List.lookup, hp, hk, ih]

theorem lookup_mapSet_ne (out : Diffs) (k : String) (v : FieldDiff)
    (name : String) (hne : name ≠ k) :
    (mapSet out k v).lookup name = out.lookup name := by
  have hnk : (name == k) = false := beq_eq_false_iff_ne.mpr hne
  induction out with
  | nil => simp [mapSet, List.lookup, hnk]
  | cons p out ih =>
    simp only [mapSet]
    by_cases hp : p.1 = k
    · have hk : (name == k) = false := by simp [hne]
      simp [List.lookup, hp, hk]
    · by_cases hnp : name = p.1
      · simp [List.lookup, hp, hnp]
      · have hk : (name == p.1) = false := by simp [hnp]
        simp [List.lookup, hp, hk, ih]

theorem lookup_compareField_ne {T : Type} [DecidableEq T] (inj : T → GoValue)
    (field : String) (a b : T) (filter : Filter) (out : Diffs)
    (name : String) (hne : name ≠ field) :
    (compareField inj field a b filter out).lookup name = out.lookup name := by
  unfold compareField
  split
  · rfl
  · split
    · exact lookup_mapSet_ne out field _ name hne
    · rfl

theorem lookup_compareMap_ne (field : String) (a b : Option TagList)
    (filter : Filter) (out : Diffs) (name : String) (hne : name ≠ field) :
    (compareMap field a b filter out).lookup name = out.lookup name := by
  unfold compareMap
  split
  · rfl
  · split
    · exact lookup_mapSet_ne out field _ name hne
    · rfl

theorem lookup_compareSlice_ne (field : String) (a b : List String)
    (filter : Filter) (out : Diffs) (name : String) (hne : name ≠ field) :
    (compareSlice field a b filter out).lookup name = out.lookup name := by
  unfold compareSlice
  split
  · rfl
  · split
    · exact lookup_mapSet_ne out field _ name hne
    · rfl

theorem compareField_not_in_filter {T : Type} [DecidableEq T] (inj : T → GoValue)
    (field : String) (a b : T) (filter : Filter) (out : Diffs)
    (hf : filter ≠ []) (hh : filterHas filter field = false) :
    compareField inj field a b filter out = out := by
  have he : filter.isEmpty = false := by
    cases filter with
    | nil => exact absurd rfl hf
    | cons x xs => rfl
  simp [compareField, he, hh]

theorem compareMap_not_in_filter (field : String) (a b : Option TagList)
    (filter : Filter) (out : Diffs)
    (hf : filter ≠ []) (hh : filterHas filter field = false) :
    compareMap field a b filter out = out := by
  have he : filter.isEmpty = false := by
    cases filter with
    | nil => exact absurd rfl hf
    | cons x xs => rfl
  simp [compareMap, he, hh]

theorem compareSlice_not_in_filter (field : String) (a b : List String)
    (filter : Filter) (out : Diffs)
    (hf : filter ≠ []) (hh : filterHas filter field = false) :
    compareSlice field a b filter out = out := by
  have he : filter.isEmpty = false := by
    cases filter with
    | nil => exact absurd rfl hf
    | cons x xs => rfl
  simp [compareSlice, he, hh]

theorem lookup_compareField_not_in_filter {T : Type} [DecidableEq T]
    (inj : T → GoValue) (field : String) (a b : T) (filter : Filter)
    (out : Diffs) (name : String)
    (hf : filter ≠ []) (hh : filterHas filter name = false) :
    (compareField inj field a b filter out).lookup name = out.lookup name := by
  by_cases hfe : name = field
  · rw [compareField_not_in_filter inj field a b filter out hf (hfe ▸ hh)]
  · exact lookup_compareField_ne inj field a b filter out name hfe

theorem lookup_compareMap_not_in_filter (field : String) (a b : Option TagList)
    (filter : Filter) (out : Diffs) (name : String)
    (hf : filter ≠ []) (hh : filterHas filter name = false) :
    (compareMap field a b filter out).lookup name = out.lookup name := by
  by_cases hfe : name = field
  · rw [compareMap_not_in_filter field a b filter out hf (hfe ▸ hh)]
  · exact lookup_compareMap_ne field a b filter out name hfe

theorem lookup_compareSlice_not_in_filter (field : String) (a b : List String)
    (filter : Filter) (out : Diffs) (name : String)
    (hf : filter ≠ []) (hh : filterHas filter name = false) :
    (compareSlice field a b filter out).lookup name = out.lookup name := by
  by_cases hfe : name = field
  · rw [compareSlice_not_in_filter field a b filter out hf (hfe ▸ hh)]
  · exact lookup_compareSlice_ne field a b filter out name hfe

theorem lookup_scalarSteps_not_in_filter (a b : EC2Instance) (filter : Filter)
    (d : Diffs) (name : String)
    (hf : filter ≠ []) (hh : filterHas filter name = false) :
    (scalarSteps a b filter d).lookup name = d.lookup name := by
  simp only [scalarSteps]
  rw [lookup_compareField_not_in_filter _ _ _ _ _ _ _ hf hh,
    lookup_compareField_not_in_filter _ _ _ _ _ _ _ hf hh,
    lookup_compareField_not_in_filter _ _ _ _ _ _ _ hf hh,
    lookup_compareField_not_in_filter _ _ _ _ _ _ _ hf hh,
    lookup_compareField_not_in_filter _ _ _ _ _ _ _ hf hh,
    lookup_compareField_not_in_filter _ _ _ _ _ _ _ hf hh,
    lookup_compareField_not_in_filter _ _ _ _ _ _ _ hf hh,
    lookup_compareField_not_in_filter _ _ _ _ _ _ _ hf hh,
    lookup_compareField_not_in_filter _ _ _ _ _ _ _ hf hh]

theorem lookup_tagsStep_not_in_filter (a b : EC2Instance) (filter : Filter)
    (d : Diffs) (name : String)
    (hf : filter ≠ []) (hh : filterHas filter name = false) :
    (tagsStep a b filter d).lookup name = d.lookup name := by
  unfold tagsStep
  split
  · exact lookup_compareMap_not_in_filter _ _ _ _ _ _ hf hh
  · rfl

theorem lookup_sgStep_not_in_filter (a b : EC2Instance) (filter : Filter)
    (d : Diffs) (name : String)
    (hf : filter ≠ []) (hh : filterHas filter name = false) :
    (sgStep a b filter d).lookup name = d.lookup name := by
  unfold sgStep
  split
  · split
    · exact lookup_compareSlice_not_in_filter _ _ _ _ _ _ hf hh
    · rfl
  · rfl

theorem lookup_bdmStep_not_in_filter (a b : EC2Instance) (filter : Filter)
    (d : Diffs) (name : String)
    (hf : filter ≠ []) (hh : filterHas filter name = false) :
    (bdmStep a b filter d).lookup name = d.lookup name := by
  unfold bdmStep
  split
  · split
    · exact lookup_compareSlice_not_in_filter _ _ _ _ _ _ hf hh
    · rfl
  · rfl

theorem lookup_scalarSteps_ne (a b : EC2Instance) (filter : Filter) (d : Diffs)
    (name : String) (h : ¬ name ∈ scalarFieldNames) :
    (scalarSteps a b filter d).lookup name = d.lookup name := by
  simp only [scalarFieldNames, List.mem_cons, List.not_mem_nil, or_false, not_or] at h
  obtain ⟨h1, h2, h3, h4, h5, h6, h7, h8, h9⟩ := h
  simp only [scalarSteps]
  rw [lookup_compareField_ne _ _ _ _ _ _ _ h9,
    lookup_compareField_ne _ _ _ _ _ _ _ h8,
    lookup_compareField_ne _ _ _ _ _ _ _ h7,
    lookup_compareField_ne _ _ _ _ _ _ _ h6,
    lookup_compareField_ne _ _ _ _ _ _ _ h5,
    lookup_compareField_ne _ _ _ _ _ _ _ h4,
    lookup_compareField_ne _ _ _ _ _ _ _ h3,
    lookup_compareField_ne _ _ _ _ _ _ _ h2,
    lookup_compareField_ne _ _ _ _ _ _ _ h1]

theorem lookup_tagsStep_ne (a b : EC2Instance) (filter : Filter) (d : Diffs)
    (name : String) (hne : name ≠ "tags") :
    (tagsStep a b filter d).lookup name = d.lookup name := by
  unfold tagsStep
  split
  · exact lookup_compareMap_ne _ _ _ _ _ _ hne
  · rfl

theorem lookup_sgStep_ne (a b : EC2Instance) (filter : Filter) (d : Diffs)
    (name : String) (hne : name ≠ "security_groups") :
    (sgStep a b filter d).lookup name = d.lookup name := by
  unfold sgStep
  split
  · split
    · exact lookup_compareSlice_ne _ _ _ _ _ _ hne
    · rfl
  · rfl

theorem lookup_bdmStep_ne (a b : EC2Instance) (filter : Filter) (d : Diffs)
    (name : String) (hne : name ≠ "block_device_mappings") :
    (bdmStep a b filter d).lookup name = d.lookup name := by
  unfold bdmStep
  split
  · split
    · exact lookup_compareSlice_ne _ _ _ _ _ _ hne
    · rfl
  · rfl

theorem filterHas_cons_ne (n : String) (f : Filter) (field : String)
    (h : n ≠ field) :
    filterHas (n :: f) field = filterHas f field := by
  have hb : (field == n) = false := beq_eq_false_iff_ne.mpr (fun e => h e.symm)
  simp [filterHas, List.contains, List.elem, hb]

theorem FlattenBlockDevices_eq_getD (o : Option (List BlockDeviceMapping)) :
    FlattenBlockDevices o = (o.getD []).map (fun d => d.deviceName ++ "|" ++ d.volumeID) := by
  cases o <;> simp [FlattenBlockDevices]

theorem legacyCompare_str (field : String) (a b : String) (f : Filter)
    (out : Diffs) :
    legacyCompare field (.str a) (.str b) f out = compareField .str field a b f out := by
  simp only [legacyCompare, compareField, goDeepEqual, shouldCompare]
  by_cases he : f.isEmpty <;> by_cases hh : filterHas f field <;>
    by_cases hab : a = b <;> simp [he, hh, hab]

theorem legacyCompare_bool (field : String) (a b : Bool) (f : Filter)
    (out : Diffs) :
    legacyCompare field (.boolean a) (.boolean b) f out = compareField .boolean field a b f out := by
  simp only [legacyCompare, compareField, goDeepEqual, shouldCompare]
  by_cases he : f.isEmpty <;> by_cases hh : filterHas f field <;>
    by_cases hab : a = b <;> simp [he, hh, hab]

theorem legacyCompare_map (field : String) (a b : Option TagList) (f : Filter)
    (out : Diffs) :
    legacyCompare field (.strMap a) (.strMap b) f out = compareMap field a b f out := by
  simp only [legacyCompare, compareMap, goDeepEqual, shouldCompare]
  by_cases he : f.isEmpty <;> by_cases hh : filterHas f field <;>
    rcases Bool.eq_false_or_eq_true (mapsDeepEqual a b) with hab | hab <;>
    simp [he, hh, hab]

theorem legacyCompare_slice (field : String) (x y : List String) (f : Filter)
    (out : Diffs) :
    legacyCompare field (.strList (sortStrings x)) (.strList (sortStrings y)) f out =
      compareSlice field (sortStrings x) (sortStrings y) f out := by
  simp only [legacyCompare, compareSlice, goDeepEqual, shouldCompare, sortStrings_idem]
  by_cases he : f.isEmpty <;> by_cases hh : filterHas f field <;>
    by_cases hab : sortStrings x = sortStrings y <;> simp [he, hh, hab]

theorem processInstance_instanceID (tfInstances : List EC2Instance) (f : Filter)
    (i : EC2Instance) :
    (processInstance tfInstances f i).instanceID = i.instanceID := by
  unfold processInstance
  cases tfMapLookup tfInstances i.instanceID <;> rfl

theorem Heap.size_write (h : Heap) (r : Nat) (v : List String) :
    (h.write r v).size = h.size := by
  simp [Heap.write, Heap.size]

theorem Heap.read_write_ne (h : Heap) (r : Nat) (v : List String) (j : Nat)
    (hne : j ≠ r) :
    (h.write r v).read j = h.read j := by
  simp [Heap.write, Heap.read, List.getD, List.getElem?_set_ne (Ne.symm hne)]

theorem Heap.size_alloc (h : Heap) (v : List String) :
    (h.alloc v).1.size = h.size + 1 := by
  simp [Heap.alloc, Heap.size]

theorem Heap.read_alloc_lt (h : Heap) (v : List String) (j : Nat)
    (hj : j < h.size) :
    (h.alloc v).1.read j = h.read j := by
  have hj' : j < h.strs.length := hj
  simp [Heap.alloc, Heap.read, List.getD, List.getElem?_append_left hj']

theorem sortInPlace_size (h : Heap) (r : Nat) :
    (sortInPlace h r).size = h.size :=
  Heap.size_write h r _

theorem sortInPlace_read_ne (h : Heap) (r j : Nat) (hne : j ≠ r) :
    (sortInPlace h r).read j = h.read j :=
  Heap.read_write_ne h r _ j hne

theorem allocSortPair_size (h : Heap) (x y : List String) :
    (allocSortPair h x y).1.size = h.size + 2 := by
  simp only [allocSortPair, sortInPlace_size, Heap.size_alloc]

theorem allocSortPair_read (h : Heap) (x y : List String) (j : Nat)
    (hj : j < h.size) :
    (allocSortPair h x y).1.read j = h.read j := by
  have hlen : j < h.strs.length := hj
  have hne2 : j ≠ ((h.alloc x).1.alloc y).2 := by
    simp [Heap.alloc]
    omega
  have hne1 : j ≠ (h.alloc x).2 := by
    simp [Heap.alloc]
    omega
  simp only [allocSortPair]
  rw [sortInPlace_read_ne _ _ _ hne2, sortInPlace_read_ne _ _ _ hne1,
    Heap.read_alloc_lt _ _ _ (by rw [Heap.size_alloc]; omega),
    Heap.read_alloc_lt _ _ _ hj]

theorem compareSliceHeap_frame (field : String) (aRef bRef : Nat) (f : Filter)
    (out : Diffs) (h : Heap) :
    h.size ≤ (compareSliceHeap field aRef bRef f out h).2.size ∧
    ∀ j, j < h.size → (compareSliceHeap field aRef bRef f out h).2.read j = h.read j := by
  unfold compareSliceHeap
  dsimp only
  split
  · exact ⟨Nat.le_refl _, fun j hj => rfl⟩
  · have hs := allocSortPair_size h (h.read aRef) (h.read bRef)
    split
    · refine ⟨by rw [hs]; omega, fun j hj => ?_⟩
      exact allocSortPair_read _ _ _ _ hj
    · refine ⟨by rw [hs]; omega, fun j hj => ?_⟩
      exact allocSortPair_read _ _ _ _ hj

theorem sgStepHeap_frame (a b : EC2InstanceRef) (f : Filter) (d : Diffs)
    (h : Heap) :
    h.size ≤ (sgStepHeap a b f d h).2.size ∧
    ∀ j, j < h.size → (sgStepHeap a b f d h).2.read j = h.read j := by
  unfold sgStepHeap
  dsimp only
  split
  · have hs := allocSortPair_size h (readSliceRef h a.sgRef) (readSliceRef h b.sgRef)
    split
    · have hcs := compareSliceHeap_frame "security_groups"
        (allocSortPair h (readSliceRef h a.sgRef) (readSliceRef h b.sgRef)).2.1
        (allocSortPair h (readSliceRef h a.sgRef) (readSliceRef h b.sgRef)).2.2
        f d (allocSortPair h (readSliceRef h a.sgRef) (readSliceRef h b.sgRef)).1
      refine ⟨by omega, fun j hj => ?_⟩
      rw [hcs.2 j (by omega), allocSortPair_read _ _ _ _ hj]
    · refine ⟨by rw [hs]; omega, fun j hj => ?_⟩
      exact allocSortPair_read _ _ _ _ hj
  · exact ⟨Nat.le_refl _, fun j hj => rfl⟩

theorem bdmStepHeap_frame (a b : EC2InstanceRef) (f : Filter) (d : Diffs)
    (h : Heap) :
    h.size ≤ (bdmStepHeap a b f d h).2.size ∧
    ∀ j, j < h.size → (bdmStepHeap a b f d h).2.read j = h.read j := by
  unfold bdmStepHeap
  dsimp only
  split
  · have hs := allocSortPair_size h (FlattenBlockDevices a.inst.blockDeviceMappings)
      (FlattenBlockDevices b.inst.blockDeviceMappings)
    split
    · have hcs := compareSliceHeap_frame "block_device_mappings"
        (allocSortPair h (FlattenBlockDevices a.inst.blockDeviceMappings)
          (FlattenBlockDevices b.inst.blockDeviceMappings)).2.1
        (allocSortPair h (FlattenBlockDevices a.inst.blockDeviceMappings)
          (FlattenBlockDevices b.inst.blockDeviceMappings)).2.2
        f d (allocSortPair h (FlattenBlockDevices a.inst.blockDeviceMappings)
          (FlattenBlockDevices b.inst.blockDeviceMappings)).1
      refine ⟨by omega, fun j hj => ?_⟩
      rw [hcs.2 j (by omega), allocSortPair_read _ _ _ _ hj]
    · refine ⟨by rw [hs]; omega, fun j hj => ?_⟩
      exact allocSortPair_read _ _ _ _ hj
  · exact ⟨Nat.le_refl _, fun j hj => rfl⟩

theorem compareInstancesHeap_frame (a b : EC2InstanceRef) (f : Filter)
    (h : Heap) :
    h.size ≤ (compareInstancesHeap a b f h).2.size ∧
    ∀ j, j < h.size → (compareInstancesHeap a b f h).2.read j = h.read j := by
  unfold compareInstancesHeap
  dsimp only
  have h1 := sgStepHeap_frame a b f
    (tagsStep a.inst b.inst f (scalarSteps a.inst b.inst f [])) h
  have h2 := bdmStepHeap_frame a b f
    (sgStepHeap a b f (tagsStep a.inst b.inst f (scalarSteps a.inst b.inst f [])) h).1
    (sgStepHeap a b f (tagsStep a.inst b.inst f (scalarSteps a.inst b.inst f [])) h).2
  refine ⟨by omega, fun j hj => ?_⟩
  rw [h2.2 j (by omega), h1.2 j hj]

theorem processInstanceHeap_frame (tfInstances : List EC2InstanceRef) (f : Filter)
    (a : EC2InstanceRef) (h : Heap) :
    h.size ≤ (processInstanceHeap tfInstances f a h).2.size ∧
    ∀ j, j < h.size → (processInstanceHeap tfInstances f a h).2.read j = h.read j := by
  unfold processInstanceHeap
  split
  · exact ⟨Nat.le_refl _, fun j hj => rfl⟩
  · exact compareInstancesHeap_frame _ _ _ _

theorem CompareAllInstancesHeap_frame (aws tfInstances : List EC2InstanceRef)
    (f : Filter) (h : Heap) :
    h.size ≤ (CompareAllInstancesHeap aws tfInstances f h).2.size ∧
    ∀ j, j < h.size → (CompareAllInstancesHeap aws tfInstances f h).2.read j = h.read j := by
  induction aws generalizing h with
  | nil => exact ⟨Nat.le_refl _, fun j hj => rfl⟩
  | cons a as ih =>
    have h1 := processInstanceHeap_frame tfInstances f a h
    have h2 := ih (processInstanceHeap tfInstances f a h).2
    unfold CompareAllInstancesHeap
    dsimp only
    refine ⟨by omega, fun j hj => ?_⟩
    rw [h2.2 j (by omega), h1.2 j hj]

theorem compareInstances_differences (a b : EC2Instance) (f : Filter) :
    (compareInstances a b f).differences =
      bdmStep a b f (sgStep a b f (tagsStep a b f (scalarSteps a b f []))) := rfl

theorem compareInstances_drift_iff (a b : EC2Instance) (f : Filter) :
    (compareInstances a b f).driftDetected = true ↔
      (compareInstances a b f).differences ≠ [] := by
  simp only [compareInstances]
  simp [List.length_pos]

/-- C1: an observed resource whose identifier has no declared counterpart
yields, at its task's position, exactly one `DriftResult` with
`drift_detected = true` and a single diff under the reserved name
`"terraform_state"` with observed `"exists"` and declared `"missing"`; the
dispatcher returns one result per observed resource. -/
theorem compareAllInstances_missing_counterpart
    (aws tfInstances : List EC2Instance) (f : Filter) (i : Nat)
    (inst : EC2Instance) (hget : aws[i]? = some inst)
    (hmiss : tfMapLookup tfInstances inst.instanceID = none) :
    (CompareAllInstances aws tfInstances f).length = aws.length ∧
    (CompareAllInstances aws tfInstances f)[i]? =
      some { instanceID := inst.instanceID
             driftDetected := true
             differences := [("terraform_state", ⟨GoValue.str "exists", GoValue.str "missing"⟩)] } := by
  refine ⟨List.length_map _ _, ?_⟩
  rw [CompareAllInstances, List.getElem?_map, hget]
  simp [processInstance, hmiss]

theorem compareAllInstances_missing_counterpart_witness :
    (CompareAllInstances [{ instanceID := "i-2" }] [] []).length =
      ([{ instanceID := "i-2" }] : List EC2Instance).length ∧
    (CompareAllInstances [{ instanceID := "i-2" }] [] [])[0]? =
      some { instanceID := "i-2", driftDetected := true
             differences := [("terraform_state", ⟨GoValue.str "exists", GoValue.str "missing"⟩)] } :=
  compareAllInstances_missing_counterpart [{ instanceID := "i-2" }] [] [] 0
    { instanceID := "i-2" } (by decide) (by decide)

/-- C2: under no cancellation the dispatcher returns exactly one result per
observed resource, and the multiset of identifiers of the results equals the
multiset of identifiers of the observed input. -/
theorem compareAllInstances_complete (aws tfInstances : List EC2Instance)
    (f : Filter) :
    (CompareAllInstances aws tfInstances f).length = aws.length ∧
    (((CompareAllInstances aws tfInstances f).map DriftResult.instanceID : Multiset String)) =
      ((aws.map EC2Instance.instanceID : List String) : Multiset String) := by
  refine ⟨List.length_map _ _, ?_⟩
  have hmap : (CompareAllInstances aws tfInstances f).map DriftResult.instanceID =
      aws.map EC2Instance.instanceID := by
    rw [CompareAllInstances, List.map_map]
    exact List.map_congr_left (fun i _ => processInstance_instanceID tfInstances f i)
  rw [hmap]

/-- C3 counterexample: a resource with an absent (nil) tags map against one
with a present but empty tags map yields a `"tags"` diff — the absent map is
not treated as equal to the empty one. -/
theorem nil_vs_empty_tags_emit_diff :
    (compareInstances { instanceID := "i-1", tags := none }
      { instanceID := "i-1", tags := some [] } []).differences =
      [("tags", ⟨GoValue.strMap none, GoValue.strMap (some [])⟩)] ∧
    (compareInstances { instanceID := "i-1", tags := none }
      { instanceID := "i-1", tags := some [] } []).driftDetected = true := by
  constructor
  · decide
  · decide

/-- C3 (amended): an absent security-group list or block-device list compares
equal to a present empty one — whenever the two sides' copies (resp.
flattened forms) coincide, in particular when one side is nil and the other
empty, no diff is emitted for the field; but an absent (nil) tags map
compared against a present empty tags map emits a `"tags"` diff whenever the
field passes the filter, because `reflect.DeepEqual` distinguishes a nil map
from an empty one. -/
theorem absent_collections_vs_empty (a b : EC2Instance) (f : Filter) :
    (sliceCopy a.securityGroups = sliceCopy b.securityGroups →
      ((compareInstances a b f).differences).lookup "security_groups" = none) ∧
    (FlattenBlockDevices a.blockDeviceMappings = FlattenBlockDevices b.blockDeviceMappings →
      ((compareInstances a b f).differences).lookup "block_device_mappings" = none) ∧
    (a.tags = none → b.tags = some [] → shouldCompare f "tags" = true →
      ((compareInstances a b f).differences).lookup "tags" =
        some ⟨GoValue.strMap none, GoValue.strMap (some [])⟩) := by
  refine ⟨fun hsg => ?_, fun hbdm => ?_, fun hta htb hsc => ?_⟩
  · rw [compareInstances_differences, lookup_bdmStep_ne _ _ _ _ _ (by decide)]
    have hstep : sgStep a b f (tagsStep a b f (scalarSteps a b f [])) =
        tagsStep a b f (scalarSteps a b f []) := by
      unfold sgStep
      rw [hsg]
      simp
    rw [hstep, lookup_tagsStep_ne _ _ _ _ _ (by decide),
      lookup_scalarSteps_ne _ _ _ _ _ (by decide)]
    rfl
  · rw [compareInstances_differences]
    have hstep : bdmStep a b f (sgStep a b f (tagsStep a b f (scalarSteps a b f []))) =
        sgStep a b f (tagsStep a b f (scalarSteps a b f [])) := by
      unfold bdmStep
      rw [hbdm]
      simp
    rw [hstep, lookup_sgStep_ne _ _ _ _ _ (by decide),
      lookup_tagsStep_ne _ _ _ _ _ (by decide),
      lookup_scalarSteps_ne _ _ _ _ _ (by decide)]
    rfl
  · rw [compareInstances_differences, lookup_bdmStep_ne _ _ _ _ _ (by decide),
      lookup_sgStep_ne _ _ _ _ _ (by decide)]
    have hde : mapsDeepEqual a.tags b.tags = false := by
      rw [hta, htb]
      rfl
    have hguard : (!f.isEmpty && !(filterHas f "tags")) = false := by
      rcases Bool.eq_false_or_eq_true f.isEmpty with he | he
      · simp [he]
      · have hh : filterHas f "tags" = true := by
          rw [shouldCompare, he] at hsc
          simpa using hsc
        simp [he, hh]
    unfold tagsStep
    rw [hsc, hde]
    simp only [Bool.not_false, Bool.and_true]
    unfold compareMap
    rw [hguard, hde, hta, htb]
    simp only [Bool.false_eq_true, if_false, Bool.not_false, if_true]
    exact lookup_mapSet_self _ _ _

theorem absent_collections_vs_empty_witness :
    ((compareInstances
        { instanceID := "i-1", securityGroups := none, tags := none, blockDeviceMappings := none }
        { instanceID := "i-1", securityGroups := some [], tags := some [], blockDeviceMappings := some [] }
        []).differences).lookup "security_groups" = none ∧
    ((compareInstances
        { instanceID := "i-1", securityGroups := none, tags := none, blockDeviceMappings := none }
        { instanceID := "i-1", securityGroups := some [], tags := some [], blockDeviceMappings := some [] }
        []).differences).lookup "block_device_mappings" = none ∧
    ((compareInstances
        { instanceID := "i-1", securityGroups := none, tags := none, blockDeviceMappings := none }
        { instanceID := "i-1", securityGroups := some [], tags := some [], blockDeviceMappings := some [] }
        []).differences).lookup "tags" =
      some ⟨GoValue.strMap none, GoValue.strMap (some [])⟩ :=
  ⟨(absent_collections_vs_empty _ _ []).1 (by decide),
   (absent_collections_vs_empty _ _ []).2.1 (by decide),
   (absent_collections_vs_empty _ _ []).2.2 rfl rfl (by decide)⟩

/-- C4 counterexample: adding the unrecognized name `"bogus"` to the empty
filter changes the result — the empty filter compares every field, while the
enlarged filter `{"bogus"}` is non-empty and matches nothing, so no field is
compared at all. -/
theorem unrecognized_name_changes_empty_filter :
    compareInstances { instanceID := "i-1", instanceType := "t3.micro" }
      { instanceID := "i-1", instanceType := "t2.micro" } ["bogus"] ≠
    compareInstances { instanceID := "i-1", instanceType := "t3.micro" }
      { instanceID := "i-1", instanceType := "t2.micro" } [] := by
  decide

/-- C4 (amended): for a NON-EMPTY filter, adding an unrecognized name has no
effect: the comparison result is unchanged.  (Adding an unrecognized name to
the empty filter does change behaviour, since a non-empty filter suppresses
every non-matching field.) -/
theorem unrecognized_filter_name_no_effect (a b : EC2Instance) (f : Filter)
    (n : String) (hf : f ≠ []) (hn : ¬ n ∈ allFieldNames) :
    compareInstances a b (n :: f) = compareInstances a b f := by
  have hfe : f.isEmpty = false := by
    cases f with
    | nil => exact absurd rfl hf
    | cons x xs => rfl
  simp only [allFieldNames, scalarFieldNames, List.mem_append, List.mem_cons,
    List.not_mem_nil, or_false, not_or] at hn
  obtain ⟨⟨h1, h2, h3, h4, h5, h6, h7, h8, h9⟩, h10, h11, h12⟩ := hn
  have e1 := filterHas_cons_ne n f "instance_type" h1
  have e2 := filterHas_cons_ne n f "image_id" h2
  have e3 := filterHas_cons_ne n f "key_name" h3
  have e4 := filterHas_cons_ne n f "subnet_id" h4
  have e5 := filterHas_cons_ne n f "vpc_id" h5
  have e6 := filterHas_cons_ne n f "iam_instance_profile" h6
  have e7 := filterHas_cons_ne n f "monitoring" h7
  have e8 := filterHas_cons_ne n f "architecture" h8
  have e9 := filterHas_cons_ne n f "virtualization_type" h9
  have e10 := filterHas_cons_ne n f "tags" h10
  have e11 := filterHas_cons_ne n f "security_groups" h11
  have e12 := filterHas_cons_ne n f "block_device_mappings" h12
  simp only [compareInstances, scalarSteps, tagsStep, sgStep, bdmStep,
    compareField, compareMap, compareSlice, shouldCompare, List.isEmpty_cons,
    hfe, e1, e2, e3, e4, e5, e6, e7, e8, e9, e10, e11, e12]

theorem unrecognized_filter_name_no_effect_witness :
    compareInstances { instanceID := "i-1", instanceType := "t3.micro" }
      { instanceID := "i-1", instanceType := "t2.micro" } ["bogus", "instance_type"] =
    compareInstances { instanceID := "i-1", instanceType := "t3.micro" }
      { instanceID := "i-1", instanceType := "t2.micro" } ["instance_type"] :=
  unrecognized_filter_name_no_effect
    { instanceID := "i-1", instanceType := "t3.micro" }
    { instanceID := "i-1", instanceType := "t2.micro" }
    ["instance_type"] "bogus" (by decide) (by decide)

/-- C5: with a non-empty filter, no diff is ever emitted for a field name
that is not in the filter, whatever the two resources hold. -/
theorem filtered_out_field_never_diffs (a b : EC2Instance) (f : Filter)
    (name : String) (hf : f ≠ []) (hh : filterHas f name = false) :
    ((compareInstances a b f).differences).lookup name = none := by
  rw [compareInstances_differences,
    lookup_bdmStep_not_in_filter _ _ _ _ _ hf hh,
    lookup_sgStep_not_in_filter _ _ _ _ _ hf hh,
    lookup_tagsStep_not_in_filter _ _ _ _ _ hf hh,
    lookup_scalarSteps_not_in_filter _ _ _ _ _ hf hh]
  rfl

theorem filtered_out_field_never_diffs_witness :
    ((compareInstances { instanceID := "i-1", instanceType := "t3.micro" }
      { instanceID := "i-1", instanceType := "t2.micro" } ["tags"]).differences).lookup
      "instance_type" = none :=
  filtered_out_field_never_diffs
    { instanceID := "i-1", instanceType := "t3.micro" }
    { instanceID := "i-1", instanceType := "t2.micro" }
    ["tags"] "instance_type" (by decide) (by decide)

/-- C6: permuting the security-group list or the block-device list on either
side never changes the resulting `DriftResult`, and a diff emitted for
either field stores the lexicographically sorted forms of the two sides. -/
theorem collection_order_independence (a b : EC2Instance) (f : Filter) :
    (∀ l : List String, l.Perm (sliceCopy a.securityGroups) →
      compareInstances { a with securityGroups := some l } b f = compareInstances a b f) ∧
    (∀ l : List String, l.Perm (sliceCopy b.securityGroups) →
      compareInstances a { b with securityGroups := some l } f = compareInstances a b f) ∧
    (∀ m : List BlockDeviceMapping, m.Perm (a.blockDeviceMappings.getD []) →
      compareInstances { a with blockDeviceMappings := some m } b f = compareInstances a b f) ∧
    (∀ m : List BlockDeviceMapping, m.Perm (b.blockDeviceMappings.getD []) →
      compareInstances a { b with blockDeviceMappings := some m } f = compareInstances a b f) ∧
    (∀ v : FieldDiff,
      ((compareInstances a b f).differences).lookup "security_groups" = some v →
      v = ⟨GoValue.strList (sortStrings (sliceCopy a.securityGroups)),
           GoValue.strList (sortStrings (sliceCopy b.securityGroups))⟩) ∧
    (∀ v : FieldDiff,
      ((compareInstances a b f).differences).lookup "block_device_mappings" = some v →
      v = ⟨GoValue.strList (sortStrings (FlattenBlockDevices a.blockDeviceMappings)),
           GoValue.strList (sortStrings (FlattenBlockDevices b.blockDeviceMappings))⟩) := by
  refine ⟨fun l hperm => ?_, fun l hperm => ?_, fun m hperm => ?_, fun m hperm => ?_,
    fun v hv => ?_, fun v hv => ?_⟩
  · have hs : sortStrings l = sortStrings (a.securityGroups.getD []) :=
      sortStrings_eq_of_perm hperm
    simp only [compareInstances, scalarSteps, tagsStep, sgStep, bdmStep, sliceCopy,
      Option.getD_some, hs]
  · have hs : sortStrings l = sortStrings (b.securityGroups.getD []) :=
      sortStrings_eq_of_perm hperm
    simp only [compareInstances, scalarSteps, tagsStep, sgStep, bdmStep, sliceCopy,
      Option.getD_some, hs]
  · have hp : (FlattenBlockDevices (some m)).Perm (FlattenBlockDevices a.blockDeviceMappings) := by
      rw [FlattenBlockDevices_eq_getD, FlattenBlockDevices_eq_getD]
      exact hperm.map _
    have hs : sortStrings (FlattenBlockDevices (some m)) =
        sortStrings (FlattenBlockDevices a.blockDeviceMappings) :=
      sortStrings_eq_of_perm hp
    simp only [compareInstances, scalarSteps, tagsStep, sgStep, bdmStep, hs]
  · have hp : (FlattenBlockDevices (some m)).Perm (FlattenBlockDevices b.blockDeviceMappings) := by
      rw [FlattenBlockDevices_eq_getD, FlattenBlockDevices_eq_getD]
      exact hperm.map _
    have hs : sortStrings (FlattenBlockDevices (some m)) =
        sortStrings (FlattenBlockDevices b.blockDeviceMappings) :=
      sortStrings_eq_of_perm hp
    simp only [compareInstances, scalarSteps, tagsStep, sgStep, bdmStep, hs]
  · rw [compareInstances_differences, lookup_bdmStep_ne _ _ _ _ _ (by decide)] at hv
    have hprior : ((tagsStep a b f (scalarSteps a b f [])).lookup "security_groups") = none := by
      rw [lookup_tagsStep_ne _ _ _ _ _ (by decide),
        lookup_scalarSteps_ne _ _ _ _ _ (by decide)]
      rfl
    unfold sgStep at hv
    split at hv
    · split at hv
      · rename_i hne
        unfold compareSlice at hv
        split at hv
        · rw [hprior] at hv
          simp at hv
        · rw [sortStrings_idem, sortStrings_idem, if_pos hne, lookup_mapSet_self] at hv
          exact (Option.some.inj hv).symm
      · rw [hprior] at hv
        simp at hv
    · rw [hprior] at hv
      simp at hv
  · rw [compareInstances_differences] at hv
    have hprior : ((sgStep a b f (tagsStep a b f (scalarSteps a b f []))).lookup "block_device_mappings") = none := by
      rw [lookup_sgStep_ne _ _ _ _ _ (by decide),
        lookup_tagsStep_ne _ _ _ _ _ (by decide),
        lookup_scalarSteps_ne _ _ _ _ _ (by decide)]
      rfl
    unfold bdmStep at hv
    split at hv
    · split at hv
      · rename_i hne
        unfold compareSlice at hv
        split at hv
        · rw [hprior] at hv
          simp at hv
        · rw [sortStrings_idem, sortStrings_idem, if_pos hne, lookup_mapSet_self] at hv
          exact (Option.some.inj hv).symm
      · rw [hprior] at hv
        simp at hv
    · rw [hprior] at hv
      simp at hv

theorem collection_order_independence_witness :
    compareInstances { instanceID := "i-1", securityGroups := some ["sg-2", "sg-1"] }
      { instanceID := "i-1", securityGroups := some ["sg-1", "sg-3"] } [] =
    compareInstances { instanceID := "i-1", securityGroups := some ["sg-1", "sg-2"] }
      { instanceID := "i-1", securityGroups := some ["sg-1", "sg-3"] } [] ∧
    (⟨GoValue.strList ["sg-1", "sg-2"], GoValue.strList ["sg-1", "sg-3"]⟩ : FieldDiff) =
      ⟨GoValue.strList (sortStrings (sliceCopy (some ["sg-1", "sg-2"]))),
       GoValue.strList (sortStrings (sliceCopy (some ["sg-1", "sg-3"])))⟩ :=
  ⟨(collection_order_independence
      { instanceID := "i-1", securityGroups := some ["sg-1", "sg-2"] }
      { instanceID := "i-1", securityGroups := some ["sg-1", "sg-3"] } []).1
      ["sg-2", "sg-1"] (List.Perm.swap "sg-1" "sg-2" []),
   (collection_order_independence
      { instanceID := "i-1", securityGroups := some ["sg-1", "sg-2"] }
      { instanceID := "i-1", securityGroups := some ["sg-1", "sg-3"] } []).2.2.2.2.1
      ⟨GoValue.strList ["sg-1", "sg-2"], GoValue.strList ["sg-1", "sg-3"]⟩ (by decide)⟩

/-- C7: every `DriftResult` the engine produces — from `compareInstances` or
synthesized by `CompareAllInstances` for a missing counterpart — satisfies
`drift_detected == (len(differences) > 0)`. -/
theorem drift_flag_iff_nonempty_diffs (a b : EC2Instance) (f : Filter) :
    ((compareInstances a b f).driftDetected = true ↔
      (compareInstances a b f).differences ≠ []) ∧
    ∀ (aws tfInstances : List EC2Instance) (g : Filter) (r : DriftResult),
      r ∈ CompareAllInstances aws tfInstances g →
      (r.driftDetected = true ↔ r.differences ≠ []) := by
  refine ⟨compareInstances_drift_iff a b f, ?_⟩
  intro aws tfInstances g r hr
  obtain ⟨i, _, rfl⟩ := List.mem_map.mp hr
  unfold processInstance
  cases h : tfMapLookup tfInstances i.instanceID with
  | none => simp
  | some tfInst => exact compareInstances_drift_iff i tfInst g

theorem drift_flag_iff_nonempty_diffs_witness :
    ((compareInstances { instanceID := "i-1" } { instanceID := "i-1" } []).driftDetected = true ↔
      (compareInstances { instanceID := "i-1" } { instanceID := "i-1" } []).differences ≠ []) ∧
    ((DriftResult.mk "i-2" true [("terraform_state", ⟨GoValue.str "exists", GoValue.str "missing"⟩)]).driftDetected = true ↔
      (DriftResult.mk "i-2" true [("terraform_state", ⟨GoValue.str "exists", GoValue.str "missing"⟩)]).differences ≠ []) :=
  ⟨(drift_flag_iff_nonempty_diffs { instanceID := "i-1" } { instanceID := "i-1" } []).1,
   (drift_flag_iff_nonempty_diffs { instanceID := "i-1" } { instanceID := "i-1" } []).2
     [{ instanceID := "i-2" }] [] []
     (DriftResult.mk "i-2" true [("terraform_state", ⟨GoValue.str "exists", GoValue.str "missing"⟩)])
     (by decide)⟩

/-- C8: with any cancellation pattern (including cancellation before any
task is dequeued) the dispatcher returns normally with at most one result
per observed resource, and every returned result is the complete result of
some observed resource — no partial result is emitted for an abandoned
task. -/
theorem cancellation_short_result_list (aws tfInstances : List EC2Instance)
    (f : Filter) (completed : List Bool) :
    (CompareAllInstancesCancellable aws tfInstances f completed).length ≤ aws.length ∧
    ∀ r ∈ CompareAllInstancesCancellable aws tfInstances f completed,
      ∃ inst ∈ aws, r = processInstance tfInstances f inst := by
  constructor
  · rw [CompareAllInstancesCancellable, List.length_map]
    calc (List.filter _ (aws.zip completed)).length
        ≤ (aws.zip completed).length := List.length_filter_le _ _
      _ ≤ aws.length := by
          rw [List.length_zip]
          exact min_le_left _ _
  · intro r hr
    rw [CompareAllInstancesCancellable] at hr
    obtain ⟨p, hp, rfl⟩ := List.mem_map.mp hr
    exact ⟨p.1, (List.of_mem_zip (List.mem_of_mem_filter hp)).1, rfl⟩

theorem cancellation_short_result_list_witness :
    (CompareAllInstancesCancellable [{ instanceID := "i-1" }, { instanceID := "i-2" }]
      [] [] [true, false]).length ≤
      ([{ instanceID := "i-1" }, { instanceID := "i-2" }] : List EC2Instance).length ∧
    ∃ inst ∈ ([{ instanceID := "i-1" }, { instanceID := "i-2" }] : List EC2Instance),
      processInstance [] [] { instanceID := "i-1" } = processInstance [] [] inst :=
  ⟨(cancellation_short_result_list [{ instanceID := "i-1" }, { instanceID := "i-2" }]
      [] [] [true, false]).1,
   (cancellation_short_result_list [{ instanceID := "i-1" }, { instanceID := "i-2" }]
      [] [] [true, false]).2
     (processInstance [] [] { instanceID := "i-1" }) (by decide)⟩

/-- C9: comparison never mutates its inputs: every slice that existed in the
heap before a comparison — in particular each input resource's
security-group list — holds exactly the same value afterwards, for a single
pair and for the dispatcher over any lists; sorting happens only on freshly
allocated copies.  (Tag maps and block-device slices are pure values in the
model because no code path writes to them; see the module doc.) -/
theorem engine_never_mutates_inputs (f : Filter) (h : Heap) :
    (∀ (a b : EC2InstanceRef) (j : Nat), j < h.size →
      ((compareInstancesHeap a b f h).2).read j = h.read j) ∧
    (∀ (aws tfInstances : List EC2InstanceRef) (j : Nat), j < h.size →
      ((CompareAllInstancesHeap aws tfInstances f h).2).read j = h.read j) :=
  ⟨fun a b j hj => (compareInstancesHeap_frame a b f h).2 j hj,
   fun aws tfInstances j hj => (CompareAllInstancesHeap_frame aws tfInstances f h).2 j hj⟩

theorem engine_never_mutates_inputs_witness :
    ((compareInstancesHeap ⟨{ instanceID := "i-1" }, some 0⟩ ⟨{ instanceID := "i-1" }, some 0⟩
      [] ⟨[["b", "a"]]⟩).2).read 0 = (⟨[["b", "a"]]⟩ : Heap).read 0 ∧
    ((CompareAllInstancesHeap [⟨{ instanceID := "i-1" }, some 0⟩] [] [] ⟨[["b", "a"]]⟩).2).read 0 =
      (⟨[["b", "a"]]⟩ : Heap).read 0 :=
  ⟨(engine_never_mutates_inputs [] ⟨[["b", "a"]]⟩).1
      ⟨{ instanceID := "i-1" }, some 0⟩ ⟨{ instanceID := "i-1" }, some 0⟩ 0 (by decide),
   (engine_never_mutates_inputs [] ⟨[["b", "a"]]⟩).2
      [⟨{ instanceID := "i-1" }, some 0⟩] [] 0 (by decide)⟩

/-- C10: the legacy `reflect.DeepEqual`-based `CompareInstances` and the
current typed `compareInstances` return equal `DriftResult`s on every pair of
instances and every filter: same identifier, same drift flag, and the same
differences mapping. -/
theorem legacy_and_current_comparators_agree (a b : EC2Instance) (f : Filter) :
    CompareInstancesLegacy a b f = compareInstances a b f := by
  simp only [CompareInstancesLegacy, compareInstances, legacyScalarSteps, scalarSteps,
    legacyTagsStep, tagsStep, legacySgStep, sgStep, legacyBdmStep, bdmStep,
    legacyCompare_str, legacyCompare_bool, legacyCompare_map, legacyCompare_slice]

end DriftChecker
